import Mathlib

/-!
Verification of the header parsing/formatting helpers of `src/header/parsing.rs`
(hyper). Byte sequences are `List Nat` (each element one `u8`), text is
`List Char`, and the generic `T: FromStr` capability of the Rust code is a
caller-supplied `parse : List Char → Option T`. Functions that index into a
slice are given an explicit panic channel (`Except Unit`) so that
reachability of the out-of-bounds branch can be stated.
-/

namespace HyperParsing

/-- UTF-8 decoding of a byte list, embedding `str::from_utf8` followed by
char iteration: returns the decoded scalar values, or `none` when the bytes
are not valid UTF-8 (overlong forms, surrogates and values above U+10FFFF
are rejected, as in Rust). -/
def utf8Decode : List Nat → Option (List Char)
  | [] => some []
  | b :: rest =>
    if b < 0x80 then
      (utf8Decode rest).map (fun cs => Char.ofNat b :: cs)
    else if b < 0xC2 then none
    else if b ≤ 0xDF then
      match rest with
      | b2 :: rest2 =>
        if 0x80 ≤ b2 ∧ b2 ≤ 0xBF then
          (utf8Decode rest2).map (fun cs => Char.ofNat ((b - 0xC0) * 64 + (b2 - 0x80)) :: cs)
        else none
      | [] => none
    else if b ≤ 0xEF then
      match rest with
      | b2 :: b3 :: rest3 =>
        let lo2 := if b = 0xE0 then 0xA0 else 0x80
        let hi2 := if b = 0xED then 0x9F else 0xBF
        if (lo2 ≤ b2 ∧ b2 ≤ hi2) ∧ (0x80 ≤ b3 ∧ b3 ≤ 0xBF) then
          (utf8Decode rest3).map (fun cs =>
            Char.ofNat ((b - 0xE0) * 4096 + (b2 - 0x80) * 64 + (b3 - 0x80)) :: cs)
        else none
      | _ => none
    else if b ≤ 0xF4 then
      match rest with
      | b2 :: b3 :: b4 :: rest4 =>
        let lo2 := if b = 0xF0 then 0x90 else 0x80
        let hi2 := if b = 0xF4 then 0x8F else 0xBF
        if (lo2 ≤ b2 ∧ b2 ≤ hi2) ∧ (0x80 ≤ b3 ∧ b3 ≤ 0xBF) ∧ (0x80 ≤ b4 ∧ b4 ≤ 0xBF) then
          (utf8Decode rest4).map (fun cs =>
            Char.ofNat ((b - 0xF0) * 262144 + (b2 - 0x80) * 4096 + (b3 - 0x80) * 64 + (b4 - 0x80)) :: cs)
        else none
      | _ => none
    else none

/-- Rust `char::is_whitespace`: the Unicode White_Space property. -/
def isWhitespaceRust (c : Char) : Bool :=
  let n := c.toNat
  (9 ≤ n && n ≤ 13) || n = 32 || n = 133 || n = 160 || n = 5760 ||
    (8192 ≤ n && n ≤ 8202) || n = 8232 || n = 8233 || n = 8239 || n = 8287 || n = 12288

/-- Rust `str::trim`: drop leading and trailing `char::is_whitespace` chars. -/
def rustTrim (cs : List Char) : List Char :=
  ((cs.dropWhile isWhitespaceRust).reverse.dropWhile isWhitespaceRust).reverse

/-- ASCII-only whitespace (tab, LF, VT, FF, CR, space); used to state the
spec sentence that speaks of trimming ASCII whitespace. -/
def isAsciiWhitespace (c : Char) : Bool :=
  let n := c.toNat
  (9 ≤ n && n ≤ 13) || n = 32

/-- Trimming only ASCII whitespace, following the spec sentence. -/
def asciiTrim (cs : List Char) : List Char :=
  ((cs.dropWhile isAsciiWhitespace).reverse.dropWhile isAsciiWhitespace).reverse

/-- Rust `str::split(',')`: splitting the empty string yields one empty
substring, and every comma contributes a boundary. -/
def splitComma : List Char → List (List Char)
  | [] => [[]]
  | c :: cs =>
    if c = ',' then [] :: splitComma cs
    else
      match splitComma cs with
      | g :: gs => (c :: g) :: gs
      | [] => [[c]]

/-- Embeds `from_one_comma_delimited<T>`: UTF-8 decode, split on the comma,
trim each substring, keep the substrings that parse. -/
def from_one_comma_delimited {T : Type} (parse : List Char → Option T)
    (raw : List Nat) : Option (List T) :=
  match utf8Decode raw with
  | some s => some (((splitComma s).map rustTrim).filterMap parse)
  | none => none

/-- A slice element access `xs[i]`, with its panic on the out-of-bounds
branch made explicit as `Except.error ()`. -/
def idx {α : Type} (xs : List α) (i : Nat) : Except Unit α :=
  match xs[i]? with
  | some x => Except.ok x
  | none => Except.error ()

/-- Embeds `from_one_raw_str<T>`: requires exactly one raw element, decodes
it as UTF-8 and parses the text. The outer `Except` is the panic channel of
the `raw[0]` access. -/
def from_one_raw_str {T : Type} (parse : List Char → Option T)
    (raw : List (List Nat)) : Except Unit (Option T) :=
  if raw.length ≠ 1 then Except.ok none
  else
    match idx raw 0 with
    | Except.error e => Except.error e
    | Except.ok v =>
      Except.ok (match utf8Decode v with
        | some s => parse s
        | none => none)

/-- Embeds `from_comma_delimited<T>`: requires exactly one raw element, then
delegates to `from_one_comma_delimited` on its bytes. The outer `Except` is
the panic channel of the `raw[0]` access. -/
def from_comma_delimited {T : Type} (parse : List Char → Option T)
    (raw : List (List Nat)) : Except Unit (Option (List T)) :=
  if raw.length ≠ 1 then Except.ok none
  else
    match idx raw 0 with
    | Except.error e => Except.error e
    | Except.ok v => Except.ok (from_one_comma_delimited parse v)

/-- Decimal digit run: `some` of the value when the list is a non-empty
all-digit run, `none` otherwise. -/
def digitsVal : List Char → Option Nat
  | [] => none
  | [c] => if c.isDigit then some (c.toNat - 48) else none
  | c :: cs =>
    if c.isDigit then
      (digitsVal cs).map (fun n => (c.toNat - 48) * 10 ^ cs.length + n)
    else none

/-- Modelled from the spec: the standard-library integer text-parsing rule
(`i64::from_str`, the "Integer" item type of the spec) — an optional sign
followed by a non-empty run of decimal digits, rejecting values outside the
64-bit signed range. The implementation lives in the Rust standard library,
outside this repository. -/
def parseI64 (cs : List Char) : Option Int :=
  match cs with
  | '+' :: rest =>
    (digitsVal rest).bind (fun n => if n ≤ 2 ^ 63 - 1 then some (Int.ofNat n) else none)
  | '-' :: rest =>
    (digitsVal rest).bind (fun n => if n ≤ 2 ^ 63 then some (-(Int.ofNat n)) else none)
  | _ =>
    (digitsVal cs).bind (fun n => if n ≤ 2 ^ 63 - 1 then some (Int.ofNat n) else none)

/-- UTF-8 bytes of an ASCII-only string. -/
def asciiBytes (s : String) : List Nat :=
  s.toList.map Char.toNat

/-- The modulus of the unsigned pointer-sized integer (`usize`, 64-bit). -/
def USIZE : Nat := 2 ^ 64

/-- The `usize` computation `n - 1` with wrap-around (release-mode)
semantics: subtraction modulo `2 ^ 64`. -/
def usizeSub1 (n : Nat) : Nat :=
  (n + (USIZE - 1)) % USIZE

/-- The literal separator `", "` written between consecutive items. -/
def sepChars : List Char :=
  [',', ' ']

/-- The loop of `fmt_comma_delimited`: for each item write its display text,
and when its index is below `last` also write the separator; a failed write
aborts with the sink's error. The sink is a caller-supplied `write` on an
abstract state `σ`. -/
def fmtLoop {σ ε T : Type} (write : σ → List Char → Except ε σ)
    (disp : T → List Char) (last : Nat) :
    σ → Nat → List T → Except ε σ
  | s, _, [] => Except.ok s
  | s, i, p :: ps =>
    match write s (disp p) with
    | Except.error e => Except.error e
    | Except.ok s1 =>
      if i < last then
        match write s1 sepChars with
        | Except.error e => Except.error e
        | Except.ok s2 => fmtLoop write disp last s2 (i + 1) ps
      else fmtLoop write disp last s1 (i + 1) ps

/-- Embeds `fmt_comma_delimited<T>`: computes `last = parts.len() - 1` in
wrapping `usize` arithmetic, then runs the write loop from index 0. -/
def fmt_comma_delimited {σ ε T : Type} (write : σ → List Char → Except ε σ)
    (disp : T → List Char) (s : σ) (parts : List T) : Except ε σ :=
  fmtLoop write disp (usizeSub1 parts.length) s 0 parts

/-- A sink that always succeeds and accumulates the written characters. -/
def accWrite (s cs : List Char) : Except Unit (List Char) :=
  Except.ok (s ++ cs)

/-- The spec's join: items in sequence order with the separator between
consecutive items, none before the first and none after the last. -/
def specJoin (sep : List Char) : List (List Char) → List Char
  | [] => []
  | [x] => x
  | x :: xs => x ++ sep ++ specJoin sep xs

/-- The ordered sequence of chunks `fmt_comma_delimited` asks the sink to
write: each item's display text, followed by the separator when the item's
index is below `last`. -/
def chunkList {T : Type} (disp : T → List Char) (last : Nat) :
    Nat → List T → List (List Char)
  | _, [] => []
  | i, p :: ps =>
    if i < last then disp p :: sepChars :: chunkList disp last (i + 1) ps
    else disp p :: chunkList disp last (i + 1) ps

/-- Reference sink driver: attempt the writes in order, stopping at the
first failure and propagating that error unchanged. -/
def writeSeq {σ ε : Type} (write : σ → List Char → Except ε σ) :
    σ → List (List Char) → Except ε σ
  | s, [] => Except.ok s
  | s, c :: cs =>
    match write s c with
    | Except.error e => Except.error e
    | Except.ok s1 => writeSeq write s1 cs

/-- The `time` crate's calendar timestamp (`time::Tm`), as spelled out by
the `NOV_07` test fixture of the source: all fields are machine integers;
`tm_mon` is 0-indexed, `tm_year` counts years since 1900. -/
structure Tm where
  tm_sec : Int
  tm_min : Int
  tm_hour : Int
  tm_mday : Int
  tm_mon : Int
  tm_year : Int
  tm_wday : Int
  tm_yday : Int
  tm_isdst : Int
  tm_utcoff : Int
  tm_nsec : Int
deriving DecidableEq, Repr

/-- The fields a successful HTTP-date scan determines; all remaining `Tm`
fields stay at their zero defaults. -/
structure DateParts where
  wday : Nat
  mday : Nat
  mon : Nat
  year : Int
  hour : Nat
  minute : Nat
  second : Nat
deriving DecidableEq, Repr

/-- Build the parsed `Tm` from scanned parts: day-of-year, DST flag, UTC
offset and nanoseconds are left at zero. -/
def mkTm (p : DateParts) : Tm :=
  { tm_sec := (p.second : Int), tm_min := (p.minute : Int), tm_hour := (p.hour : Int),
    tm_mday := (p.mday : Int), tm_mon := (p.mon : Int), tm_year := p.year,
    tm_wday := (p.wday : Int), tm_yday := 0, tm_isdst := 0, tm_utcoff := 0, tm_nsec := 0 }

/-- Strip an expected literal from the front of the input. -/
def stripLit : List Char → List Char → Option (List Char)
  | [], cs => some cs
  | l :: ls, c :: cs => if c = l then stripLit ls cs else none
  | _ :: _, [] => none

/-- Try a keyword table in order; the first key that is a prefix of the
input wins, yielding its value and the rest of the input. -/
def scanKeyword {α : Type} : List (List Char × α) → List Char → Option (α × List Char)
  | [], _ => none
  | (k, v) :: tbl, cs =>
    match stripLit k cs with
    | some rest => some (v, rest)
    | none => scanKeyword tbl cs

/-- Month abbreviations, 0-indexed. -/
def monthAbbrevs : List (List Char × Nat) :=
  [("Jan".toList, 0), ("Feb".toList, 1), ("Mar".toList, 2), ("Apr".toList, 3),
   ("May".toList, 4), ("Jun".toList, 5), ("Jul".toList, 6), ("Aug".toList, 7),
   ("Sep".toList, 8), ("Oct".toList, 9), ("Nov".toList, 10), ("Dec".toList, 11)]

/-- Weekday abbreviations, Sunday = 0. -/
def wdayAbbrevs : List (List Char × Nat) :=
  [("Sun".toList, 0), ("Mon".toList, 1), ("Tue".toList, 2), ("Wed".toList, 3),
   ("Thu".toList, 4), ("Fri".toList, 5), ("Sat".toList, 6)]

/-- Full weekday names, Sunday = 0. -/
def wdayFulls : List (List Char × Nat) :=
  [("Sunday".toList, 0), ("Monday".toList, 1), ("Tuesday".toList, 2),
   ("Wednesday".toList, 3), ("Thursday".toList, 4), ("Friday".toList, 5),
   ("Saturday".toList, 6)]

/-- One decimal digit. -/
def digit? (c : Char) : Option Nat :=
  if c.isDigit then some (c.toNat - 48) else none

/-- Exactly two decimal digits. -/
def scan2 : List Char → Option (Nat × List Char)
  | c1 :: c2 :: cs =>
    match digit? c1, digit? c2 with
    | some d1, some d2 => some (10 * d1 + d2, cs)
    | _, _ => none
  | _ => none

/-- Exactly four decimal digits. -/
def scan4 : List Char → Option (Nat × List Char)
  | c1 :: c2 :: c3 :: c4 :: cs =>
    match digit? c1, digit? c2, digit? c3, digit? c4 with
    | some d1, some d2, some d3, some d4 =>
      some (1000 * d1 + 100 * d2 + 10 * d3 + d4, cs)
    | _, _, _, _ => none
  | _ => none

/-- Day-of-month padded to width 2: two digits, or a space and one digit. -/
def scanPaddedDay : List Char → Option (Nat × List Char)
  | c1 :: c2 :: cs =>
    match digit? c1, digit? c2 with
    | some d1, some d2 => some (10 * d1 + d2, cs)
    | _, some d2 => if c1 = ' ' then some (d2, cs) else none
    | _, _ => none
  | _ => none

/-- An `HH:MM:SS` clock time. -/
def scanTime (cs : List Char) : Option ((Nat × Nat × Nat) × List Char) := do
  let (h, cs) ← scan2 cs
  let cs ← stripLit [':'] cs
  let (m, cs) ← scan2 cs
  let cs ← stripLit [':'] cs
  let (s, cs) ← scan2 cs
  pure ((h, m, s), cs)

/-- A symbolic timezone name: one or more letters, consumed but not
resolved (the grammars are evaluated in GMT, offset zero). -/
def scanZone (cs : List Char) : Option (List Char) :=
  let name := cs.takeWhile (fun c => c.isAlpha)
  if name.length = 0 then none else some (cs.drop name.length)

/-- Modelled from the spec: the IMF-fixdate grammar that the external
`time::strptime` checks for format `"%a, %d %b %Y %T %Z"` — weekday
abbreviation, comma, space, 2-digit day, space, month abbreviation, space,
4-digit year, space, `HH:MM:SS`, space, timezone name. -/
def scanImf (cs : List Char) : Option DateParts := do
  let (w, cs) ← scanKeyword wdayAbbrevs cs
  let cs ← stripLit ", ".toList cs
  let (d, cs) ← scan2 cs
  let cs ← stripLit " ".toList cs
  let (mo, cs) ← scanKeyword monthAbbrevs cs
  let cs ← stripLit " ".toList cs
  let (y4, cs) ← scan4 cs
  let cs ← stripLit " ".toList cs
  let (t, cs) ← scanTime cs
  let cs ← stripLit " ".toList cs
  let cs ← scanZone cs
  if cs = [] then
    some { wday := w, mday := d, mon := mo, year := (y4 : Int) - 1900,
           hour := t.1, minute := t.2.1, second := t.2.2 }
  else none

/-- Modelled from the spec: the obsolete RFC-850 grammar that the external
`time::strptime` checks for format `"%A, %d-%b-%y %T %Z"` — full weekday
name, comma, space, 2-digit day, hyphen, month abbreviation, hyphen,
2-digit year (69..99 map to 19xx, 00..68 to 20xx), space, `HH:MM:SS`,
space, timezone name. -/
def scanRfc850 (cs : List Char) : Option DateParts := do
  let (w, cs) ← scanKeyword wdayFulls cs
  let cs ← stripLit ", ".toList cs
  let (d, cs) ← scan2 cs
  let cs ← stripLit "-".toList cs
  let (mo, cs) ← scanKeyword monthAbbrevs cs
  let cs ← stripLit "-".toList cs
  let (y2, cs) ← scan2 cs
  let cs ← stripLit " ".toList cs
  let (t, cs) ← scanTime cs
  let cs ← stripLit " ".toList cs
  let cs ← scanZone cs
  if cs = [] then
    some { wday := w, mday := d, mon := mo,
           year := if 69 ≤ y2 then (y2 : Int) else (y2 : Int) + 100,
           hour := t.1, minute := t.2.1, second := t.2.2 }
  else none

/-- Modelled from the spec: the ANSI C asctime grammar that the external
`time::strptime` checks for format `"%c"` — weekday abbreviation, space,
month abbreviation, space, day-of-month space-padded to width 2, space,
`HH:MM:SS`, space, 4-digit year. -/
def scanAsctime (cs : List Char) : Option DateParts := do
  let (w, cs) ← scanKeyword wdayAbbrevs cs
  let cs ← stripLit " ".toList cs
  let (mo, cs) ← scanKeyword monthAbbrevs cs
  let cs ← stripLit " ".toList cs
  let (d, cs) ← scanPaddedDay cs
  let cs ← stripLit " ".toList cs
  let (t, cs) ← scanTime cs
  let cs ← stripLit " ".toList cs
  let (y4, cs) ← scan4 cs
  if cs = [] then
    some { wday := w, mday := d, mon := mo, year := (y4 : Int) - 1900,
           hour := t.1, minute := t.2.1, second := t.2.2 }
  else none

/-- The first date grammar: IMF-fixdate. -/
def imfFixdate (cs : List Char) : Option Tm :=
  (scanImf cs).map mkTm

/-- The second date grammar: obsolete RFC-850 form. -/
def rfc850Date (cs : List Char) : Option Tm :=
  (scanRfc850 cs).map mkTm

/-- The third date grammar: ANSI C asctime form. -/
def asctimeDate (cs : List Char) : Option Tm :=
  (scanAsctime cs).map mkTm

/-- Embeds `tm_from_str`: try IMF-fixdate, fall back to RFC-850, then to
asctime, as the source's `or_else` chain does. -/
def tm_from_str (cs : List Char) : Option Tm :=
  ((imfFixdate cs).orElse fun _ => rfc850Date cs).orElse fun _ => asctimeDate cs

/-- Spec-side dispatch: attempt an ordered list of grammars and return the
result of the first one that matches. -/
def firstMatch (gs : List (List Char → Option Tm)) (cs : List Char) : Option Tm :=
  match gs with
  | [] => none
  | g :: rest =>
    match g cs with
    | some t => some t
    | none => firstMatch rest cs

/-- The `NOV_07` fixture of the source's tests. -/
def NOV_07 : Tm :=
  { tm_nsec := 0, tm_sec := 37, tm_min := 48, tm_hour := 8, tm_mday := 7,
    tm_mon := 10, tm_year := 94, tm_wday := 0, tm_isdst := 0, tm_yday := 0,
    tm_utcoff := 0 }

/-! Helper lemmas shared by several developments. -/

theorem filterMap_length_countP {α β : Type} (f : α → Option β) :
    ∀ l : List α, (l.filterMap f).length = l.countP (fun a => (f a).isSome) := by
  intro l
  induction l with
  | nil => rfl
  | cons a l ih =>
    cases h : f a <;>
      simp [List.filterMap_cons, h, List.countP_cons, ih]

end HyperParsing

namespace HyperParsing

/-- C1 (counterexample): on the bytes of `"1, 2"` (a NO-BREAK SPACE
after the comma) the code trims the non-ASCII whitespace and returns both
integers, while only one comma-separated, ASCII-trimmed substring parses:
the claimed length equality fails for ASCII trimming. -/
theorem from_one_comma_delimited_ascii_cex :
    from_one_comma_delimited parseI64 [49, 44, 194, 160, 50] = some [1, 2] ∧
    utf8Decode [49, 44, 194, 160, 50] = some ['1', ',', Char.ofNat 160, '2'] ∧
    (splitComma ['1', ',', Char.ofNat 160, '2']).countP
        (fun x => (parseI64 (asciiTrim x)).isSome) = 1 := by
  refine ⟨rfl, rfl, rfl⟩

/-- C1 (amended: the code trims Unicode whitespace, not only ASCII
whitespace): on valid UTF-8, `from_one_comma_delimited` returns the
substrings obtained by splitting on the comma, trimming Unicode whitespace
and keeping those that parse, in order with duplicates preserved; the
length equals the count of comma-separated, trimmed substrings that parse;
invalid UTF-8 yields no result; `"1, x, 3"` as integers yields `[1, 3]`. -/
theorem from_one_comma_delimited_spec (T : Type) (parse : List Char → Option T)
    (raw : List Nat) :
    (∀ s, utf8Decode raw = some s →
      from_one_comma_delimited parse raw =
        some (((splitComma s).map rustTrim).filterMap parse) ∧
      (((splitComma s).map rustTrim).filterMap parse).length =
        (splitComma s).countP (fun x => (parse (rustTrim x)).isSome)) ∧
    (utf8Decode raw = none → from_one_comma_delimited parse raw = none) ∧
    from_one_comma_delimited parseI64 (asciiBytes "1, x, 3") = some [1, 3] := by
  refine ⟨fun s hs => ⟨?_, ?_⟩, fun hn => ?_, rfl⟩
  · simp [from_one_comma_delimited, hs]
  · rw [List.filterMap_map, filterMap_length_countP]
    rfl
  · simp [from_one_comma_delimited, hn]

/-- C1 (witness): the amended statement evaluated on `"1, x, 3"`. -/
theorem from_one_comma_delimited_spec_w :
    from_one_comma_delimited parseI64 (asciiBytes "1, x, 3") =
      some (((splitComma "1, x, 3".toList).map rustTrim).filterMap parseI64) ∧
    (((splitComma "1, x, 3".toList).map rustTrim).filterMap parseI64).length =
      (splitComma "1, x, 3".toList).countP
        (fun x => (parseI64 (rustTrim x)).isSome) :=
  (from_one_comma_delimited_spec Int parseI64 (asciiBytes "1, x, 3")).1
    "1, x, 3".toList rfl

/-- C3: `from_one_raw_str` never reaches its panic branch, succeeds with a
value exactly when the input is a one-element sequence whose element is
valid UTF-8 and whose text parses, and yields no result whenever the
sequence does not have exactly one element. -/
theorem from_one_raw_str_spec (T : Type) (parse : List Char → Option T)
    (raw : List (List Nat)) :
    (∃ r, from_one_raw_str parse raw = Except.ok r) ∧
    (∀ t, from_one_raw_str parse raw = Except.ok (some t) ↔
      ∃ v s, raw = [v] ∧ utf8Decode v = some s ∧ parse s = some t) ∧
    (raw.length ≠ 1 → from_one_raw_str parse raw = Except.ok none) := by
  match raw with
  | [] =>
    refine ⟨⟨none, rfl⟩, fun t => ?_, fun _ => rfl⟩
    simp [from_one_raw_str]
  | [v] =>
    refine ⟨?_, fun t => ?_, fun h => absurd rfl h⟩
    · cases hu : utf8Decode v with
      | none => exact ⟨none, by simp [from_one_raw_str, idx, hu]⟩
      | some s => exact ⟨parse s, by simp [from_one_raw_str, idx, hu]⟩
    · cases hu : utf8Decode v with
      | none => simp [from_one_raw_str, idx, hu]
      | some s =>
        simp [from_one_raw_str, idx, hu]
  | v1 :: v2 :: rest =>
    refine ⟨⟨none, ?_⟩, fun t => ?_, fun _ => ?_⟩ <;>
      simp [from_one_raw_str]

/-- C3 (witness): the behaviour at an empty sequence and at a parsing
singleton. -/
theorem from_one_raw_str_spec_w :
    from_one_raw_str parseI64 [] = Except.ok none ∧
    from_one_raw_str parseI64 [[52, 50]] = Except.ok (some 42) :=
  ⟨(from_one_raw_str_spec Int parseI64 []).2.2 (by decide),
   ((from_one_raw_str_spec Int parseI64 [[52, 50]]).2.1 42).mpr
     ⟨[52, 50], ['4', '2'], rfl, rfl, rfl⟩⟩

/-- C7: `from_comma_delimited` yields no result unless exactly one raw
element is present, and on a singleton delegates exactly to
`from_one_comma_delimited` on that element's bytes. -/
theorem from_comma_delimited_spec (T : Type) (parse : List Char → Option T)
    (raw : List (List Nat)) :
    (raw.length ≠ 1 → from_comma_delimited parse raw = Except.ok none) ∧
    (∀ v, raw = [v] →
      from_comma_delimited parse raw =
        Except.ok (from_one_comma_delimited parse v)) := by
  constructor
  · intro h
    simp [from_comma_delimited, h]
  · rintro v rfl
    simp [from_comma_delimited, idx]

/-- C7 (witness): the two cases evaluated at concrete inputs. -/
theorem from_comma_delimited_spec_w :
    from_comma_delimited parseI64 [] = Except.ok none ∧
    from_comma_delimited parseI64 [[49, 44, 50]] =
      Except.ok (from_one_comma_delimited parseI64 [49, 44, 50]) :=
  ⟨(from_comma_delimited_spec Int parseI64 []).1 (by decide),
   (from_comma_delimited_spec Int parseI64 [[49, 44, 50]]).2 [49, 44, 50] rfl⟩

/-- C10: the `raw[0]` accesses of `from_one_raw_str` and
`from_comma_delimited` sit behind the length-equals-one check, so the
out-of-bounds (panic) branch is unreachable: both functions always return
through the ok channel. -/
theorem no_index_panic (T : Type) (parse : List Char → Option T)
    (raw : List (List Nat)) :
    (∃ r, from_one_raw_str parse raw = Except.ok r) ∧
    (∃ r, from_comma_delimited parse raw = Except.ok r) := by
  match raw with
  | [] => exact ⟨⟨none, rfl⟩, ⟨none, rfl⟩⟩
  | [v] =>
    constructor
    · cases hu : utf8Decode v with
      | none => exact ⟨none, by simp [from_one_raw_str, idx, hu]⟩
      | some s => exact ⟨parse s, by simp [from_one_raw_str, idx, hu]⟩
    · exact ⟨from_one_comma_delimited parse v, by simp [from_comma_delimited, idx]⟩
  | v1 :: v2 :: rest =>
    exact ⟨⟨none, by simp [from_one_raw_str]⟩, ⟨none, by simp [from_comma_delimited]⟩⟩

theorem fmtLoop_eq_writeSeq {σ ε T : Type} (write : σ → List Char → Except ε σ)
    (disp : T → List Char) (last : Nat) :
    ∀ (ps : List T) (s : σ) (i : Nat),
      fmtLoop write disp last s i ps = writeSeq write s (chunkList disp last i ps) := by
  intro ps
  induction ps with
  | nil => intro s i; rfl
  | cons p ps ih =>
    intro s i
    by_cases hi : i < last
    · simp [fmtLoop, chunkList, hi, writeSeq]
      cases write s (disp p) with
      | error e => rfl
      | ok s1 =>
        simp [writeSeq]
        cases write s1 sepChars with
        | error e => rfl
        | ok s2 => exact ih s2 (i + 1)
    · simp [fmtLoop, chunkList, hi, writeSeq]
      cases write s (disp p) with
      | error e => rfl
      | ok s1 => exact ih s1 (i + 1)

theorem writeSeq_accWrite :
    ∀ (cs : List (List Char)) (s : List Char),
      writeSeq accWrite s cs = Except.ok (s ++ cs.flatten) := by
  intro cs
  induction cs with
  | nil => intro s; simp [writeSeq]
  | cons c cs ih =>
    intro s
    simp [writeSeq, accWrite, ih, List.append_assoc]

theorem chunkList_join {T : Type} (disp : T → List Char) (last : Nat) :
    ∀ (ps : List T) (i : Nat), i + ps.length = last + 1 →
      (chunkList disp last i ps).flatten = specJoin sepChars (ps.map disp) := by
  intro ps
  induction ps with
  | nil => intro i _; rfl
  | cons p ps ih =>
    intro i h
    cases ps with
    | nil =>
      have hi : ¬ i < last := by simp at h; omega
      simp [chunkList, hi, specJoin]
    | cons q qs =>
      have hi : i < last := by simp at h; omega
      have ih2 := ih (i + 1) (by simp at h ⊢; omega)
      have hstep : chunkList disp last i (p :: q :: qs) =
          disp p :: sepChars :: chunkList disp last (i + 1) (q :: qs) := by
        simp only [chunkList, if_pos hi]
      rw [hstep, List.flatten_cons, List.flatten_cons, ih2]
      simp [specJoin, List.append_assoc]

theorem usizeSub1_of_pos (n : Nat) (h1 : 1 ≤ n) (h2 : n < USIZE) :
    usizeSub1 n = n - 1 := by
  simp only [usizeSub1, USIZE] at h2 ⊢
  omega

/-- C5: with a sink that accumulates every written character, formatting a
non-empty sequence writes each item's display text in order with the
two-character separator `", "` between consecutive items, none before the
first and none after the last; in particular `["a", "b", "c"]` gives
exactly `"a, b, c"`. -/
theorem fmt_comma_delimited_spec (T : Type) (disp : T → List Char)
    (parts : List T) (hne : parts ≠ []) (hlen : parts.length < USIZE) :
    fmt_comma_delimited accWrite disp [] parts =
      Except.ok (specJoin sepChars (parts.map disp)) := by
  have h1 : 1 ≤ parts.length := List.length_pos.mpr hne
  rw [fmt_comma_delimited, fmtLoop_eq_writeSeq, writeSeq_accWrite,
    chunkList_join disp (usizeSub1 parts.length) parts 0
      (by rw [usizeSub1_of_pos parts.length h1 hlen]; omega)]
  simp

/-- C5 (witness): formatting `["a", "b", "c"]` yields exactly
`"a, b, c"`. -/
theorem fmt_comma_delimited_spec_w :
    fmt_comma_delimited accWrite id [] ["a".toList, "b".toList, "c".toList] =
      Except.ok "a, b, c".toList := by
  rw [fmt_comma_delimited_spec (List Char) id
    ["a".toList, "b".toList, "c".toList] (by decide) (by decide)]
  rfl

/-- C8: the formatter behaves exactly like attempting its determined
sequence of sink writes in order — it completes all items when every write
succeeds, stops at the first sink failure performing no further writes, and
propagates that sink error unchanged; it is the only embedded operation
whose result type carries a caller-visible error. -/
theorem fmt_comma_delimited_error_spec (σ ε T : Type)
    (write : σ → List Char → Except ε σ) (disp : T → List Char)
    (s : σ) (parts : List T) :
    fmt_comma_delimited write disp s parts =
      writeSeq write s (chunkList disp (usizeSub1 parts.length) 0 parts) :=
  fmtLoop_eq_writeSeq write disp (usizeSub1 parts.length) parts s 0

/-- C9: on the empty sequence the `usize` computation `parts.len() - 1`
wraps to the maximum unsigned value, yet the loop body never runs, so
nothing is written and the call succeeds for every sink; under the spec's
non-empty precondition (with the length a representable `usize`) the
subtraction does not wrap. -/
theorem fmt_comma_delimited_underflow (σ ε T : Type) :
    usizeSub1 0 = 2 ^ 64 - 1 ∧
    (∀ (write : σ → List Char → Except ε σ) (disp : T → List Char) (s : σ),
      fmt_comma_delimited write disp s ([] : List T) = Except.ok s) ∧
    (∀ parts : List T, parts ≠ [] → parts.length < USIZE →
      usizeSub1 parts.length = parts.length - 1) := by
  refine ⟨by simp [usizeSub1, USIZE], fun write disp s => rfl, fun parts hne hlen => ?_⟩
  exact usizeSub1_of_pos parts.length (List.length_pos.mpr hne) hlen

theorem orElse_eq_some_cases {α : Type} (a : Option α) (f : Unit → Option α) (x : α)
    (h : a.orElse f = some x) : a = some x ∨ f () = some x := by
  cases a with
  | none => right; simpa [Option.orElse] using h
  | some y => left; simpa [Option.orElse] using h

/-- C2: `tm_from_str` is the first-match dispatch over the three grammars in
the order IMF-fixdate, RFC-850, asctime; when no grammar matches it yields
no result, as on `"not a date"`. -/
theorem tm_from_str_priority (cs : List Char) :
    tm_from_str cs = firstMatch [imfFixdate, rfc850Date, asctimeDate] cs ∧
    (imfFixdate cs = none → rfc850Date cs = none → asctimeDate cs = none →
      tm_from_str cs = none) ∧
    tm_from_str "not a date".toList = none := by
  refine ⟨?_, fun h1 h2 h3 => ?_, rfl⟩
  · cases h1 : imfFixdate cs <;> cases h2 : rfc850Date cs <;>
      cases h3 : asctimeDate cs <;>
      simp [tm_from_str, firstMatch, Option.orElse, h1, h2, h3]
  · simp [tm_from_str, Option.orElse, h1, h2, h3]

/-- C2 (witness): the fallthrough to no-result on an unmatched string, and
the dispatch equality evaluated on the IMF-fixdate example. -/
theorem tm_from_str_priority_w :
    tm_from_str "not a date".toList = none ∧
    tm_from_str "Sun, 07 Nov 1994 08:48:37 GMT".toList =
      firstMatch [imfFixdate, rfc850Date, asctimeDate]
        "Sun, 07 Nov 1994 08:48:37 GMT".toList :=
  ⟨(tm_from_str_priority "not a date".toList).2.1 rfl rfl rfl,
   (tm_from_str_priority "Sun, 07 Nov 1994 08:48:37 GMT".toList).1⟩

/-- C4: the three example strings of the three grammars all parse to the
identical timestamp — 1994 (`tm_year` counts from 1900), November
(`tm_mon` 0-indexed), day 7, 08:48:37, Sunday (`tm_wday = 0`), zero UTC
offset. -/
theorem tm_from_str_fixture :
    tm_from_str "Sun, 07 Nov 1994 08:48:37 GMT".toList = some NOV_07 ∧
    tm_from_str "Sunday, 07-Nov-94 08:48:37 GMT".toList = some NOV_07 ∧
    tm_from_str "Sun Nov  7 08:48:37 1994".toList = some NOV_07 ∧
    NOV_07.tm_year = 94 ∧ NOV_07.tm_mon = 10 ∧ NOV_07.tm_mday = 7 ∧
    NOV_07.tm_hour = 8 ∧ NOV_07.tm_min = 48 ∧ NOV_07.tm_sec = 37 ∧
    NOV_07.tm_wday = 0 ∧ NOV_07.tm_utcoff = 0 :=
  ⟨rfl, rfl, rfl, rfl, rfl, rfl, rfl, rfl, rfl, rfl, rfl⟩

/-- C6: every timestamp `tm_from_str` returns has UTC offset zero and
nanosecond component zero. -/
theorem tm_from_str_gmt_invariant (cs : List Char) (t : Tm)
    (h : tm_from_str cs = some t) : t.tm_utcoff = 0 ∧ t.tm_nsec = 0 := by
  have key : ∀ o : Option DateParts, o.map mkTm = some t →
      t.tm_utcoff = 0 ∧ t.tm_nsec = 0 := by
    intro o ho
    cases o with
    | none => simp at ho
    | some p =>
      simp at ho
      rw [← ho]
      exact ⟨rfl, rfl⟩
  simp only [tm_from_str] at h
  rcases orElse_eq_some_cases _ _ _ h with h1 | h1
  · rcases orElse_eq_some_cases _ _ _ h1 with h2 | h2
    · simp only [imfFixdate] at h2
      exact key _ h2
    · simp only [rfc850Date] at h2
      exact key _ h2
  · simp only [asctimeDate] at h1
    exact key _ h1

/-- C6 (witness): the invariant evaluated on the parsed IMF-fixdate
example. -/
theorem tm_from_str_gmt_invariant_w :
    NOV_07.tm_utcoff = 0 ∧ NOV_07.tm_nsec = 0 :=
  tm_from_str_gmt_invariant "Sun, 07 Nov 1994 08:48:37 GMT".toList NOV_07 rfl

/-- C9 (witness): the empty call writes nothing and succeeds, and a
one-element sequence computes `last = 0` without wrapping. -/
theorem fmt_comma_delimited_underflow_w :
    fmt_comma_delimited accWrite id [] ([] : List (List Char)) = Except.ok [] ∧
    usizeSub1 [['a']].length = 0 :=
  ⟨(fmt_comma_delimited_underflow (List Char) Unit (List Char)).2.1 accWrite id [],
   (fmt_comma_delimited_underflow (List Char) Unit (List Char)).2.2 [['a']]
     (by decide) (by decide)⟩

end HyperParsing

